import Mathlib

/-!
Verification of the test-case generation pipeline: fence stripping, JSON
parsing and repair, structural validation, quality scoring, and the
orchestrator retry loop.  Python strings are modelled as `List Char` /
`String`, floats as exact rationals, and fallible code as `Option`/`Except`.
-/

set_option maxRecDepth 8000

namespace GenDemo

/-- The backtick character, written by code point to keep source plain. -/
def btick : Char := Char.ofNat 96

/-- Opening curly brace character. -/
def lbrace : Char := Char.ofNat 123

/-- Closing curly brace character. -/
def rbrace : Char := Char.ofNat 125

/-- ASCII whitespace recognised by Python's `str.strip` and the `\s` class
(restricted to the ASCII range, which is all the pipeline ever sees). -/
def isPyWs (c : Char) : Bool :=
  c = ' ' || c = '\t' || c = '\n' || c = '\r' || c = Char.ofNat 11 || c = Char.ofNat 12

/-- Word characters of the regex `\w` class (ASCII range). -/
def isWordChar (c : Char) : Bool :=
  ('a' ≤ c && c ≤ 'z') || ('A' ≤ c && c ≤ 'Z') || ('0' ≤ c && c ≤ '9') || c = '_'

/-- ASCII lower-casing of one character, as Python `str.lower` does on ASCII. -/
def lowerChar (c : Char) : Char :=
  if 'A' ≤ c && c ≤ 'Z' then Char.ofNat (c.toNat + 32) else c

/-- Lower-case every character of a list. -/
def lowerL (s : List Char) : List Char := s.map lowerChar

/-- Does the second list start with the first one? -/
def startsWith : List Char → List Char → Bool
  | [], _ => true
  | _ :: _, [] => false
  | p :: ps, c :: cs => p = c && startsWith ps cs

/-- Remove trailing characters satisfying `isPyWs` (the right half of
Python's `str.strip`). -/
def trimTrail : List Char → List Char
  | [] => []
  | c :: rest =>
    match trimTrail rest, isPyWs c with
    | [], true => []
    | [], false => [c]
    | r :: rs, _ => c :: r :: rs

/-- Python `str.strip`: drop leading and trailing whitespace. -/
def pyStrip (s : List Char) : List Char := trimTrail (s.dropWhile isPyWs)

/-- The literal fence-with-tag pattern: three backticks followed by `json`. -/
def fenceJson : List Char := [btick, btick, btick, 'j', 's', 'o', 'n']

/-- The bare fence pattern: three backticks. -/
def fence3 : List Char := [btick, btick, btick]

/-- One pass of `re.sub` for the pattern matching a triple backtick with an
optional `json` tag: scanning left to right, each occurrence of the fence
(greedily taking the tag when present) is removed.  The fuel argument only
bounds the recursion; `s.length` is always enough. -/
def removeFencesF : Nat → List Char → List Char
  | 0, s => s
  | _ + 1, [] => []
  | fuel + 1, c :: rest =>
    if startsWith fenceJson (c :: rest) then removeFencesF fuel (rest.drop 6)
    else if startsWith fence3 (c :: rest) then removeFencesF fuel (rest.drop 2)
    else c :: removeFencesF fuel rest

/-- The fence remover at its natural fuel. -/
def removeFences (s : List Char) : List Char := removeFencesF s.length s

/-- `strip_fences` from `app/services/validator.py`: delete every markdown
fence marker, then strip surrounding whitespace. -/
def strip_fences (raw : String) : String :=
  ⟨pyStrip (removeFences raw.data)⟩

/-- Whether a character list contains three consecutive backticks. -/
def hasTriple : List Char → Bool
  | a :: b :: c :: rest =>
    (a = btick && b = btick && c = btick) || hasTriple (b :: c :: rest)
  | _ => false

/-- Number of leading backticks. -/
def leadBT : List Char → Nat
  | [] => 0
  | c :: rest => if c = btick then leadBT rest + 1 else 0

lemma hasTriple_cons_of (c : Char) (t : List Char) (h : hasTriple t = false)
    (hc : c = btick → leadBT t ≤ 1) : hasTriple (c :: t) = false := by
  match t with
  | [] => rfl
  | [a] => rfl
  | a :: b :: r =>
    show ((c = btick && a = btick && b = btick) || hasTriple (a :: b :: r)) = false
    rw [h, Bool.or_false]
    by_cases h1 : c = btick
    · have h2 := hc h1
      by_cases h3 : a = btick
      · have hb : b ≠ btick := by
          intro hb
          simp [leadBT, h3, hb] at h2
        simp [hb]
      · simp [h3]
    · simp [h1]

lemma hasTriple_tail (c : Char) (t : List Char)
    (h : hasTriple (c :: t) = false) : hasTriple t = false := by
  match t with
  | [] => rfl
  | [a] => rfl
  | a :: b :: r =>
    have hh : ((c = btick && a = btick && b = btick) || hasTriple (a :: b :: r)) = false := h
    exact (Bool.or_eq_false_iff.mp hh).2

lemma leadBT_cons_ne (c : Char) (t : List Char) (h : c ≠ btick) :
    leadBT (c :: t) = 0 := by simp [leadBT, h]

lemma leadBT_cons_bt (t : List Char) : leadBT (btick :: t) = leadBT t + 1 := by
  simp [leadBT]

lemma leadBT_le_length (s : List Char) : leadBT s ≤ s.length := by
  induction s with
  | nil => simp [leadBT]
  | cons c t ih =>
    by_cases h : c = btick
    · simp [leadBT, h]
      omega
    · simp [leadBT, h]

lemma hasTriple_short (l : List Char) (h : l.length ≤ 2) : hasTriple l = false := by
  match l with
  | [] => rfl
  | [a] => rfl
  | [a, b] => rfl
  | a :: b :: c :: r => simp at h

lemma startsWith_fenceJson {s : List Char} (h : startsWith fenceJson s = true) :
    ∃ t, s = btick :: btick :: btick :: 'j' :: 's' :: 'o' :: 'n' :: t := by
  match s with
  | c1 :: c2 :: c3 :: c4 :: c5 :: c6 :: c7 :: t =>
    simp [startsWith, fenceJson] at h
    obtain ⟨h1, h2, h3, h4, h5, h6, h7⟩ := h
    exact ⟨t, by rw [← h1, ← h2, ← h3, ← h4, ← h5, ← h6, ← h7]⟩
  | [] => simp [startsWith, fenceJson] at h
  | [c1] => simp [startsWith, fenceJson] at h
  | [c1, c2] => simp [startsWith, fenceJson] at h
  | [c1, c2, c3] => simp [startsWith, fenceJson] at h
  | [c1, c2, c3, c4] => simp [startsWith, fenceJson] at h
  | [c1, c2, c3, c4, c5] => simp [startsWith, fenceJson] at h
  | [c1, c2, c3, c4, c5, c6] => simp [startsWith, fenceJson] at h

lemma startsWith_fence3 {s : List Char} (h : startsWith fence3 s = true) :
    ∃ t, s = btick :: btick :: btick :: t := by
  match s with
  | c1 :: c2 :: c3 :: t =>
    simp [startsWith, fence3] at h
    obtain ⟨h1, h2, h3⟩ := h
    exact ⟨t, by rw [← h1, ← h2, ← h3]⟩
  | [] => simp [startsWith, fence3] at h
  | [c1] => simp [startsWith, fence3] at h
  | [c1, c2] => simp [startsWith, fence3] at h

/-- Core invariant of the fence remover: the output never contains a triple
backtick, and it begins with at most `min (leadBT s) 2` backticks. -/
lemma removeFencesF_invariant :
    ∀ (fuel : Nat) (s : List Char), s.length ≤ fuel →
    hasTriple (removeFencesF fuel s) = false ∧
      leadBT (removeFencesF fuel s) ≤ min (leadBT s) 2 := by
  intro fuel
  induction fuel with
  | zero =>
    intro s hs
    have : s = [] := List.length_eq_zero.mp (Nat.le_zero.mp hs)
    subst this
    exact ⟨rfl, by simp [removeFencesF, leadBT]⟩
  | succ fuel ih =>
    intro s hs
    match s with
    | [] => exact ⟨rfl, by simp [removeFencesF, leadBT]⟩
    | c :: rest =>
      by_cases hpre : startsWith fenceJson (c :: rest) = true
      · rw [show removeFencesF (fuel + 1) (c :: rest)
            = removeFencesF fuel (rest.drop 6) by rw [removeFencesF, if_pos hpre]]
        rcases startsWith_fenceJson hpre with ⟨t, ht⟩
        injection ht with h1 h2
        subst h1
        have hlen : (rest.drop 6).length ≤ fuel := by
          simp at hs ⊢
          omega
        have hj := ih (rest.drop 6) hlen
        refine ⟨hj.1, le_trans hj.2 ?_⟩
        have h3 : 2 ≤ leadBT (btick :: rest) := by
          rw [leadBT_cons_bt, h2, leadBT_cons_bt]
          omega
        omega
      · by_cases hpre2 : startsWith fence3 (c :: rest) = true
        · rw [show removeFencesF (fuel + 1) (c :: rest)
              = removeFencesF fuel (rest.drop 2) by
            rw [removeFencesF, if_neg hpre, if_pos hpre2]]
          rcases startsWith_fence3 hpre2 with ⟨t, ht⟩
          injection ht with h1 h2
          subst h1
          have hlen : (rest.drop 2).length ≤ fuel := by
            simp at hs ⊢
            omega
          have hj := ih (rest.drop 2) hlen
          refine ⟨hj.1, le_trans hj.2 ?_⟩
          have h3 : 2 ≤ leadBT (btick :: rest) := by
            rw [leadBT_cons_bt, h2, leadBT_cons_bt]
            omega
          omega
        · rw [show removeFencesF (fuel + 1) (c :: rest)
              = c :: removeFencesF fuel rest by
            rw [removeFencesF, if_neg hpre, if_neg hpre2]]
          have hlen : rest.length ≤ fuel := by simp at hs; omega
          have hr := ih rest hlen
          by_cases hc : c = btick
          · subst hc
            have hrest : leadBT rest ≤ 1 := by
              by_contra hgt
              push_neg at hgt
              match rest, hgt with
              | a :: r, hgt =>
                by_cases ha : a = btick
                · subst ha
                  rw [leadBT_cons_bt] at hgt
                  match r, (by omega : 1 ≤ leadBT r) with
                  | b :: r2, hb =>
                    by_cases hbb : b = btick
                    · subst hbb
                      exact absurd (by simp [startsWith, fence3]) hpre2
                    · rw [leadBT_cons_ne _ _ hbb] at hb; omega
                · rw [leadBT_cons_ne _ _ ha] at hgt; omega
            have hih := hr.2
            have hout : leadBT (removeFencesF fuel rest) ≤ 1 := by omega
            constructor
            · exact hasTriple_cons_of _ _ hr.1 (fun _ => hout)
            · rw [leadBT_cons_bt]
              have hcr := leadBT_cons_bt rest
              omega
          · refine ⟨hasTriple_cons_of _ _ hr.1 (fun h => absurd h hc), ?_⟩
            rw [leadBT_cons_ne _ _ hc]
            simp

/-- The fence remover never leaves a triple backtick behind. -/
lemma removeFences_noTriple (s : List Char) :
    hasTriple (removeFences s) = false :=
  (removeFencesF_invariant s.length s (le_refl _)).1

lemma trimTrail_eq_take (s : List Char) : ∃ n, trimTrail s = s.take n := by
  induction s with
  | nil => exact ⟨0, rfl⟩
  | cons c rest ih =>
    rcases ih with ⟨n, hn⟩
    cases h : trimTrail rest with
    | nil =>
      cases hw : isPyWs c with
      | true => exact ⟨0, by simp [trimTrail, h, hw]⟩
      | false => exact ⟨1, by simp [trimTrail, h, hw]⟩
    | cons r rs =>
      refine ⟨n + 1, ?_⟩
      have : trimTrail (c :: rest) = c :: r :: rs := by
        cases hw : isPyWs c <;> simp [trimTrail, h, hw]
      rw [this, ← h, hn]
      rfl

lemma hasTriple_take (n : Nat) (s : List Char) (h : hasTriple s = false) :
    hasTriple (s.take n) = false := by
  induction s using hasTriple.induct generalizing n with
  | case1 a b c rest ih =>
    match n with
    | 0 => rfl
    | 1 => rfl
    | 2 => rfl
    | m + 3 =>
      have h1 : (a = btick && b = btick && c = btick) = false :=
        (Bool.or_eq_false_iff.mp h).1
      have h2 : hasTriple (b :: c :: rest) = false :=
        (Bool.or_eq_false_iff.mp h).2
      have h3 := ih (m + 2) h2
      show ((a = btick && b = btick && c = btick)
          || hasTriple (b :: c :: rest.take m)) = false
      rw [h1, Bool.false_or]
      exact h3
  | case2 t ht =>
    have hlen : t.length ≤ 2 := by
      match t, ht with
      | [], _ => simp
      | [a], _ => simp
      | [a, b], _ => simp
      | a :: b :: c :: r, ht => exact absurd rfl (ht a b c r)
    apply hasTriple_short
    rw [List.length_take]
    omega

lemma hasTriple_dropWhile (p : Char → Bool) (s : List Char)
    (h : hasTriple s = false) : hasTriple (s.dropWhile p) = false := by
  induction s with
  | nil => exact h
  | cons c rest ih =>
    rw [List.dropWhile_cons]
    split
    · exact ih (hasTriple_tail _ _ h)
    · exact h

lemma hasTriple_pyStrip (s : List Char) (h : hasTriple s = false) :
    hasTriple (pyStrip s) = false := by
  rcases trimTrail_eq_take (s.dropWhile isPyWs) with ⟨n, hn⟩
  rw [pyStrip, hn]
  exact hasTriple_take _ _ (hasTriple_dropWhile _ _ h)

/-- A triple-free text passes through the fence remover unchanged. -/
lemma removeFencesF_eq_self :
    ∀ (fuel : Nat) (s : List Char), s.length ≤ fuel → hasTriple s = false →
    removeFencesF fuel s = s := by
  intro fuel
  induction fuel with
  | zero =>
    intro s hs _
    have : s = [] := List.length_eq_zero.mp (Nat.le_zero.mp hs)
    subst this
    rfl
  | succ fuel ih =>
    intro s hs h
    match s with
    | [] => rfl
    | c :: rest =>
      by_cases hpre : startsWith fenceJson (c :: rest) = true
      · exfalso
        rcases startsWith_fenceJson hpre with ⟨t, ht⟩
        rw [ht] at h
        simp [hasTriple] at h
      · by_cases hpre2 : startsWith fence3 (c :: rest) = true
        · exfalso
          rcases startsWith_fence3 hpre2 with ⟨t, ht⟩
          rw [ht] at h
          simp [hasTriple] at h
        · rw [removeFencesF, if_neg hpre, if_neg hpre2,
            ih rest (by simp at hs; omega) (hasTriple_tail _ _ h)]

/-- A triple-free text passes through the fence remover unchanged. -/
lemma removeFences_eq_self (s : List Char) (h : hasTriple s = false) :
    removeFences s = s :=
  removeFencesF_eq_self s.length s (le_refl _) h

lemma trimTrail_shape (c : Char) (rest : List Char) :
    trimTrail (c :: rest) = [] ∨ ∃ t, trimTrail (c :: rest) = c :: t := by
  cases h : trimTrail rest with
  | nil =>
    cases hw : isPyWs c with
    | true => left; simp [trimTrail, h, hw]
    | false => right; exact ⟨[], by simp [trimTrail, h, hw]⟩
  | cons r rs =>
    right
    refine ⟨r :: rs, ?_⟩
    cases hw : isPyWs c <;> simp [trimTrail, h, hw]

lemma trimTrail_idem (s : List Char) : trimTrail (trimTrail s) = trimTrail s := by
  induction s with
  | nil => rfl
  | cons c rest ih =>
    cases h : trimTrail rest with
    | nil =>
      cases hw : isPyWs c with
      | true => simp [trimTrail, h, hw]
      | false =>
        have : trimTrail (c :: rest) = [c] := by simp [trimTrail, h, hw]
        rw [this]
        simp [trimTrail, hw]
    | cons r rs =>
      have h1 : trimTrail (c :: rest) = c :: r :: rs := by
        cases hw : isPyWs c <;> simp [trimTrail, h, hw]
      rw [h1]
      have h2 : trimTrail (r :: rs) = r :: rs := by
        rw [← h, ih, h]
      rw [trimTrail, h2]

lemma dropWhile_head_false (p : Char → Bool) (s : List Char) (c : Char)
    (t : List Char) (h : s.dropWhile p = c :: t) : p c = false := by
  induction s with
  | nil => simp at h
  | cons a rest ih =>
    rw [List.dropWhile_cons] at h
    split at h
    · exact ih h
    · rename_i hp
      cases h
      simpa using hp

lemma dropWhile_trimTrail (p : Char → Bool) (s : List Char)
    (hs : s.dropWhile p = s) : (trimTrail s).dropWhile p = trimTrail s := by
  match s with
  | [] => rfl
  | c :: rest =>
    have hc : p c = false := dropWhile_head_false p (c :: rest) c rest hs
    rcases trimTrail_shape c rest with h | ⟨t, h⟩
    · rw [h]; rfl
    · rw [h, List.dropWhile_cons, hc]
      simp

/-- Python `str.strip` is idempotent. -/
lemma pyStrip_idem (s : List Char) : pyStrip (pyStrip s) = pyStrip s := by
  rw [pyStrip, pyStrip]
  have h1 : ((trimTrail (s.dropWhile isPyWs)).dropWhile isPyWs)
      = trimTrail (s.dropWhile isPyWs) := by
    apply dropWhile_trimTrail
    exact List.dropWhile_idempotent isPyWs (s.dropWhile isPyWs) ▸
      List.dropWhile_idempotent isPyWs s
  rw [h1, trimTrail_idem]

/-- `strip_fences` is idempotent (helper form on raw strings). -/
lemma strip_fences_idem (s : String) :
    strip_fences (strip_fences s) = strip_fences s := by
  show (⟨pyStrip (removeFences (pyStrip (removeFences s.data)))⟩ : String)
      = ⟨pyStrip (removeFences s.data)⟩
  rw [removeFences_eq_self _ (hasTriple_pyStrip _ (removeFences_noTriple _)),
    pyStrip_idem]

/-- The output of `strip_fences` never contains a triple backtick. -/
lemma strip_fences_noTriple (s : String) :
    hasTriple (strip_fences s).data = false :=
  hasTriple_pyStrip _ (removeFences_noTriple _)

/-! ### JSON values and `json.loads` -/

/-- Parsed JSON values.  Number tokens keep their lexeme, which is all the
pipeline ever inspects. -/
inductive Json where
  | null
  | bool (b : Bool)
  | num (lexeme : String)
  | str (s : String)
  | arr (items : List Json)
  | obj (fields : List (String × Json))

/-- The whitespace characters skipped by Python's JSON decoder. -/
def jsonWsChar (c : Char) : Bool := c = ' ' || c = '\t' || c = '\n' || c = '\r'

/-- Skip JSON whitespace. -/
def skipWs (s : List Char) : List Char := s.dropWhile jsonWsChar

/-- Value of one hexadecimal digit (by code point: 0-9, a-f, A-F). -/
def hexDigitVal (c : Char) : Option Nat :=
  let n := c.toNat
  if 48 ≤ n ∧ n ≤ 57 then some (n - 48)
  else if 97 ≤ n ∧ n ≤ 102 then some (n - 87)
  else if 65 ≤ n ∧ n ≤ 70 then some (n - 55)
  else none

/-- Insert a key/value pair as Python `dict` assignment does: overwrite the
value at the first occurrence of the key, else append. -/
def insertKV : List (String × Json) → String → Json → List (String × Json)
  | [], k, v => [(k, v)]
  | (k0, v0) :: rest, k, v =>
    if k0 = k then (k0, v) :: rest else (k0, v0) :: insertKV rest k v

/-- Parse the body of a JSON string literal, after the opening quote, in the
strict mode of `json.loads` (raw control characters rejected). -/
def parseStringBody : Nat → List Char → List Char → Option (String × List Char)
  | 0, _, _ => none
  | _ + 1, [], _ => none
  | fuel + 1, c :: rest, acc =>
    if c = '"' then some (⟨acc.reverse⟩, rest)
    else if c = '\\' then
      match rest with
      | [] => none
      | e :: rest2 =>
        if e = '"' then parseStringBody fuel rest2 ('"' :: acc)
        else if e = '\\' then parseStringBody fuel rest2 ('\\' :: acc)
        else if e = '/' then parseStringBody fuel rest2 ('/' :: acc)
        else if e = 'b' then parseStringBody fuel rest2 (Char.ofNat 8 :: acc)
        else if e = 'f' then parseStringBody fuel rest2 (Char.ofNat 12 :: acc)
        else if e = 'n' then parseStringBody fuel rest2 ('\n' :: acc)
        else if e = 'r' then parseStringBody fuel rest2 ('\r' :: acc)
        else if e = 't' then parseStringBody fuel rest2 ('\t' :: acc)
        else if e = 'u' then
          match rest2 with
          | h1 :: h2 :: h3 :: h4 :: rest3 =>
            match hexDigitVal h1, hexDigitVal h2, hexDigitVal h3, hexDigitVal h4 with
            | some a, some b, some c2, some d =>
              let n := a * 4096 + b * 256 + c2 * 16 + d
              if Nat.isValidChar n then parseStringBody fuel rest3 (Char.ofNat n :: acc)
              else none
            | _, _, _, _ => none
          | _ => none
        else none
    else if c.toNat < 32 then none
    else parseStringBody fuel rest (c :: acc)

/-- ASCII decimal digit test. -/
def isDigit (c : Char) : Bool := '0' ≤ c && c ≤ '9'

/-- Integer part of the JSON number grammar: `0` or a nonzero digit followed
by digits. -/
def parseIntPart : List Char → Option (List Char × List Char)
  | [] => none
  | c :: rest =>
    if c = '0' then some ([c], rest)
    else if isDigit c then
      some (c :: rest.takeWhile isDigit, rest.dropWhile isDigit)
    else none

/-- Optional fraction part `.digits`. -/
def parseFracPart : List Char → List Char × List Char
  | '.' :: rest =>
    match rest.takeWhile isDigit with
    | [] => ([], '.' :: rest)
    | ds => ('.' :: ds, rest.dropWhile isDigit)
  | s => ([], s)

/-- Optional exponent part `eE [+-] digits`. -/
def parseExpPart : List Char → List Char × List Char
  | [] => ([], [])
  | c :: rest =>
    if c = 'e' || c = 'E' then
      match rest with
      | s2 :: rest2 =>
        if s2 = '+' || s2 = '-' then
          match rest2.takeWhile isDigit with
          | [] => ([], c :: rest)
          | ds => (c :: s2 :: ds, rest2.dropWhile isDigit)
        else
          match rest.takeWhile isDigit with
          | [] => ([], c :: rest)
          | ds => (c :: ds, rest.dropWhile isDigit)
      | [] => ([], [c])
    else ([], c :: rest)

/-- A JSON number token, per the `NUMBER_RE` regex of Python's decoder. -/
def parseNumber : List Char → Option (String × List Char)
  | '-' :: rest =>
    match parseIntPart rest with
    | none => none
    | some (ip, r1) =>
      match parseFracPart r1 with
      | (fp, r2) =>
        match parseExpPart r2 with
        | (ep, r3) => some (⟨'-' :: (ip ++ fp ++ ep)⟩, r3)
  | s =>
    match parseIntPart s with
    | none => none
    | some (ip, r1) =>
      match parseFracPart r1 with
      | (fp, r2) =>
        match parseExpPart r2 with
        | (ep, r3) => some (⟨ip ++ fp ++ ep⟩, r3)

mutual

/-- Parse one JSON value (leading whitespace allowed), mirroring the scanner
of Python's `json` module. -/
def parseVal : Nat → List Char → Option (Json × List Char)
  | 0, _ => none
  | fuel + 1, s0 =>
    match skipWs s0 with
    | [] => none
    | c :: rest =>
      if c = '"' then
        match parseStringBody (rest.length + 1) rest [] with
        | some (t, r) => some (.str t, r)
        | none => none
      else if c = lbrace then parseObjStart fuel rest
      else if c = '[' then parseArrStart fuel rest
      else if startsWith ['n', 'u', 'l', 'l'] (c :: rest) then
        some (.null, (c :: rest).drop 4)
      else if startsWith ['t', 'r', 'u', 'e'] (c :: rest) then
        some (.bool true, (c :: rest).drop 4)
      else if startsWith ['f', 'a', 'l', 's', 'e'] (c :: rest) then
        some (.bool false, (c :: rest).drop 5)
      else if startsWith ['N', 'a', 'N'] (c :: rest) then
        some (.num "NaN", (c :: rest).drop 3)
      else if startsWith ['I', 'n', 'f', 'i', 'n', 'i', 't', 'y'] (c :: rest) then
        some (.num "Infinity", (c :: rest).drop 8)
      else if startsWith ['-', 'I', 'n', 'f', 'i', 'n', 'i', 't', 'y'] (c :: rest) then
        some (.num "-Infinity", (c :: rest).drop 9)
      else
        match parseNumber (c :: rest) with
        | some (lex, r) => some (.num lex, r)
        | none => none

/-- Parse an array, positioned just after the opening `[`. -/
def parseArrStart : Nat → List Char → Option (Json × List Char)
  | 0, _ => none
  | fuel + 1, s =>
    match skipWs s with
    | ']' :: r => some (.arr [], r)
    | s1 =>
      match parseArrItems fuel s1 with
      | some (items, r) => some (.arr items, r)
      | none => none

/-- Parse the comma-separated items of a non-empty array. -/
def parseArrItems : Nat → List Char → Option (List Json × List Char)
  | 0, _ => none
  | fuel + 1, s =>
    match parseVal fuel s with
    | none => none
    | some (v, r) =>
      match skipWs r with
      | ',' :: r2 =>
        match parseArrItems fuel r2 with
        | some (vs, r3) => some (v :: vs, r3)
        | none => none
      | ']' :: r2 => some ([v], r2)
      | _ => none

/-- Parse an object, positioned just after the opening brace. -/
def parseObjStart : Nat → List Char → Option (Json × List Char)
  | 0, _ => none
  | fuel + 1, s =>
    match skipWs s with
    | [] => none
    | c :: r =>
      if c = rbrace then some (.obj [], r)
      else
        match parseObjItems fuel (c :: r) [] with
        | some (kvs, r2) => some (.obj kvs, r2)
        | none => none

/-- Parse the members of a non-empty object, accumulating pairs with
Python-`dict` overwrite semantics. -/
def parseObjItems : Nat → List Char → List (String × Json) →
    Option (List (String × Json) × List Char)
  | 0, _, _ => none
  | fuel + 1, s, acc =>
    match skipWs s with
    | [] => none
    | c :: rest =>
      if c = '"' then
        match parseStringBody (rest.length + 1) rest [] with
        | some (key, r1) =>
          match skipWs r1 with
          | ':' :: r3 =>
            match parseVal fuel r3 with
            | some (v, r4) =>
              match skipWs r4 with
              | ',' :: r6 => parseObjItems fuel r6 (insertKV acc key v)
              | d :: r6 =>
                if d = rbrace then some (insertKV acc key v, r6) else none
              | [] => none
            | none => none
          | _ => none
        | none => none
      else none

end

/-- `json.loads`: parse one value and require only whitespace after it. -/
def json_loads (s : String) : Option Json :=
  match parseVal (4 * s.length + 16) s.data with
  | some (v, rest) => if skipWs rest = [] then some v else none
  | none => none

/-! ### Pydantic models and `_validate_structure` -/

/-- `TestCase` of `app/core/models.py` (field values, before constraints). -/
structure TestCase where
  title : String
  preconditions : String
  steps : List String
  expected_result : String
deriving DecidableEq

/-- `LLMOutput` of `app/core/models.py`. -/
structure LLMOutput where
  test_cases : List TestCase
deriving DecidableEq

/-- Key lookup in a parsed JSON object. -/
def jLookup : List (String × Json) → String → Option Json
  | [], _ => none
  | (k0, v) :: rest, k => if k0 = k then some v else jLookup rest k

/-- A JSON value accepted for a `str` field. -/
def asStr : Json → Option String
  | .str s => some s
  | _ => none

/-- A JSON value accepted for a `List[str]` field. -/
def asStrList : Json → Option (List String)
  | .arr xs => xs.mapM asStr
  | _ => none

/-- Shape/type extraction of one test case from a JSON object: the four
required keys must be present with string / list-of-string values. -/
def extractCase (j : Json) : Option TestCase :=
  match j with
  | .obj kvs =>
    match jLookup kvs "title", jLookup kvs "preconditions",
        jLookup kvs "steps", jLookup kvs "expected_result" with
    | some jt, some jp, some js, some je =>
      match asStr jt, asStr jp, asStrList js, asStr je with
      | some t, some p, some ss, some e => some ⟨t, p, ss, e⟩
      | _, _, _, _ => none
    | _, _, _, _ => none
  | _ => none

/-- Shape/type extraction of the whole payload: a JSON object whose
`test_cases` key holds a list of test-case objects. -/
def extractCases (j : Json) : Option (List TestCase) :=
  match j with
  | .obj kvs =>
    match jLookup kvs "test_cases" with
    | some (.arr xs) => xs.mapM extractCase
    | _ => none
  | _ => none

/-- The per-case field constraints of the Pydantic `TestCase` model:
`title` 5–200 chars, `preconditions` 5–200 chars, 2–4 steps each non-blank,
`expected_result` 10–200 chars. -/
def caseOk (tc : TestCase) : Bool :=
  (5 ≤ tc.title.length && tc.title.length ≤ 200) &&
  (5 ≤ tc.preconditions.length && tc.preconditions.length ≤ 200) &&
  (2 ≤ tc.steps.length && tc.steps.length ≤ 4) &&
  tc.steps.all (fun s => !(pyStrip s.data).isEmpty) &&
  (10 ≤ tc.expected_result.length && tc.expected_result.length ≤ 200)

/-- `_validate_structure` of `app/services/validator.py`: validate the parsed
object graph against `LLMOutput` (non-empty `test_cases`, all field
constraints), raising on any violation. -/
def validate_structure (j : Json) : Except String LLMOutput :=
  match extractCases j with
  | none => .error "Structural validation failed"
  | some l =>
    if !l.isEmpty && l.all caseOk then .ok ⟨l⟩
    else .error "Structural validation failed"

/-! ### `repair_truncated_json` -/

/-- Consume `(?:[^"\\]|\\.)*` greedily and report whether the match can reach
the end of the text (the `$` anchor). -/
def tailRunA : List Char → Bool
  | [] => true
  | c :: rest =>
    if c = '\\' then
      match rest with
      | [] => false
      | d :: rest2 => if d = '\n' then false else tailRunA rest2
    else if c = '"' then false
    else tailRunA rest

/-- Consume an optional leading comma (the greedy `,?`). -/
def dropComma : List Char → List Char
  | ',' :: t => t
  | s => s

/-- Does `,?\s*"(?:[^"\\]|\\.)*$` match the whole suffix? -/
def tryA (s : List Char) : Bool :=
  match (dropComma s).dropWhile isPyWs with
  | '"' :: t => tailRunA t
  | _ => false

/-- `re.sub(r',?\s*"(?:[^"\\]|\\.)*$', "", s)`: delete from the leftmost
position where the truncated-string pattern matches through to the end. -/
def subA : List Char → List Char
  | [] => []
  | c :: rest => if tryA (c :: rest) then [] else c :: subA rest

/-- Consume `[^"]*` and then a closing quote, returning the rest. -/
def afterQuote : List Char → Option (List Char)
  | [] => none
  | c :: rest => if c = '"' then some rest else afterQuote rest

/-- Does `,?\s*"[^"]*"\s*:\s*$` match the whole suffix? -/
def tryB (s : List Char) : Bool :=
  match (dropComma s).dropWhile isPyWs with
  | '"' :: t =>
    match afterQuote t with
    | some r1 =>
      match r1.dropWhile isPyWs with
      | ':' :: r2 => r2.all isPyWs
      | _ => false
    | none => false
  | _ => false

/-- `re.sub(r',?\s*"[^"]*"\s*:\s*$', "", s)`: delete a trailing key that has
a colon but no value. -/
def subB : List Char → List Char
  | [] => []
  | c :: rest => if tryB (c :: rest) then [] else c :: subB rest

/-- Does `,?\s*"[^"]*$` match the whole suffix? -/
def tryC (s : List Char) : Bool :=
  match (dropComma s).dropWhile isPyWs with
  | '"' :: t => t.all (fun c => !(c = '"' : Bool))
  | _ => false

/-- `re.sub(r',?\s*"[^"]*$', "", s)`: delete a trailing key whose string
literal is unterminated. -/
def subC : List Char → List Char
  | [] => []
  | c :: rest => if tryC (c :: rest) then [] else c :: subC rest

/-- Is the first non-whitespace character a closing delimiter? -/
def wsCloser (t : List Char) : Bool :=
  match t.dropWhile isPyWs with
  | c :: _ => c = rbrace || c = ']'
  | [] => false

/-- `re.sub(r',(\s*[}\]])', r'\1', s)`: drop every comma that directly
precedes (up to whitespace) a closing delimiter, anywhere in the text. -/
def subD : List Char → List Char
  | [] => []
  | c :: rest =>
    if c = ',' && wsCloser rest then subD rest else c :: subD rest

/-- `re.sub(r',\s*$', "", s)`: drop a trailing comma (plus trailing
whitespace). -/
def subE : List Char → List Char
  | [] => []
  | c :: rest => if c = ',' && rest.all isPyWs then [] else c :: subE rest

/-- State of the delimiter-counting scan of `repair_truncated_json`. -/
structure ScanSt where
  inStr : Bool
  esc : Bool
  braces : Int
  brackets : Int
deriving DecidableEq

/-- One step of the delimiter-counting state machine, exactly as the `for`
loop of `repair_truncated_json` handles one character. -/
def scanStep (st : ScanSt) (ch : Char) : ScanSt :=
  if st.esc then { st with esc := false }
  else if ch = '\\' && st.inStr then { st with esc := true }
  else if ch = '"' then { st with inStr := !st.inStr }
  else if st.inStr then st
  else if ch = lbrace then { st with braces := st.braces + 1 }
  else if ch = rbrace then { st with braces := st.braces - 1 }
  else if ch = '[' then { st with brackets := st.brackets + 1 }
  else if ch = ']' then { st with brackets := st.brackets - 1 }
  else st

/-- Initial state of the counting scan. -/
def initScan : ScanSt := ⟨false, false, 0, 0⟩

/-- Run the counting scan over a text. -/
def countDelims (s : List Char) : ScanSt := s.foldl scanStep initScan

/-- The closers appended by the repair: `]` for each unmatched `[` first,
then `}` for each unmatched `{` (clamped at zero, as `max(0, ·)` does). -/
def closersFor (st : ScanSt) : List Char :=
  List.replicate st.brackets.toNat ']' ++ List.replicate st.braces.toNat rbrace

/-- The append step of the repair: text plus the computed closers. -/
def appendClosers (s : List Char) : List Char := s ++ closersFor (countDelims s)

/-- The full textual rewrite of `repair_truncated_json` (steps a–f). -/
def repairRewrite (s : List Char) : List Char :=
  subD (appendClosers (subE (subD (subC (subB (subA s))))))

/-- `repair_truncated_json` of `app/services/validator.py`: strip fences,
try a direct parse, else rewrite the tail and parse the rewritten text. -/
def repair_truncated_json (raw : String) : Option Json :=
  let s := strip_fences raw
  match json_loads s with
  | some v => some v
  | none => json_loads ⟨repairRewrite s.data⟩

/-! ### `parse_and_validate` -/

/-- `parse_and_validate` of `app/services/validator.py`.  Returns the
validated output and the `was_repaired` flag, or the `LLMParseError`
message. -/
def parse_and_validate (raw : String) (stop_reason : String) :
    Except String (LLMOutput × Bool) :=
  let cleaned := strip_fences raw
  let repairPath : Except String (LLMOutput × Bool) :=
    match repair_truncated_json cleaned with
    | some data =>
      match validate_structure data with
      | .ok out => .ok (out, true)
      | .error e => .error e
    | none =>
      .error ("JSON could not be parsed or repaired. stop_reason="
        ++ stop_reason ++ ". First 300 chars of raw: " ++ ⟨raw.data.take 300⟩)
  if stop_reason ≠ "length" then
    match json_loads cleaned with
    | some data =>
      match validate_structure data with
      | .ok out => .ok (out, false)
      | .error e => .error e
    | none => repairPath
  else repairPath

/-! ### Quality scorer (`app/services/scorer.py`), floats as exact rationals -/

/-- Python's `round` on an exact rational: nearest integer, ties to even. -/
def pyRound (x : ℚ) : ℤ :=
  if x - ⌊x⌋ < 1 / 2 then ⌊x⌋
  else if (1 : ℚ) / 2 < x - ⌊x⌋ then ⌊x⌋ + 1
  else if Even ⌊x⌋ then ⌊x⌋ else ⌊x⌋ + 1

/-- Python's `round(x, 4)`: round to four decimal places. -/
def round4 (x : ℚ) : ℚ := (pyRound (x * 10000) : ℚ) / 10000

/-- The alternatives of the `_GENERIC_PRECOND` regex, lower-cased: the
pattern is anchored on both sides, so a (case-insensitive) full match
against one of these strings is required. -/
def genericPrecondList : List String :=
  ["the user is logged in", "the user is on the app", "the user is in the system",
   "n/a", "na", "none", "ningun", "ninguna", "no aplica"]

/-- `_GENERIC_PRECOND.match(p)` with the pattern's `^...$` anchoring and
`IGNORECASE`. -/
def genericPrecond (p : List Char) : Bool :=
  genericPrecondList.any (fun g => lowerL p = g.data)

/-- The alternatives of the `_VAGUE` regex: every way one `\b...\b` match can
spell out (with `correct(ly)?` contributing both forms), lower-cased. -/
def vagueWords : List String :=
  ["works", "correct", "correctly", "properly", "fine", "good", "ok", "okay",
   "done", "success", "funciona", "correcto", "bien"]

/-- Split a text into its maximal runs of `\w` word characters (accumulator
holds the current run reversed). -/
def wordRunsGo : List Char → List Char → List (List Char)
  | [], acc => if acc.isEmpty then [] else [acc.reverse]
  | c :: rest, acc =>
    if isWordChar c then wordRunsGo rest (c :: acc)
    else if acc.isEmpty then wordRunsGo rest []
    else acc.reverse :: wordRunsGo rest []

/-- Maximal word-character runs of a text. -/
def wordRuns (s : List Char) : List (List Char) := wordRunsGo s []

/-- `len(_VAGUE.findall(text))`: because the pattern is a word bounded by
`\b` on both sides, the matches are exactly the maximal word runs equal
(case-insensitively) to one of the vague words. -/
def vagueCount (s : String) : Nat :=
  ((wordRuns s.data).filter (fun w => vagueWords.any (fun v => lowerL w = v.data))).length

/-- Python `str.split()` with no argument: split on whitespace runs,
discarding empty pieces. -/
def pySplitGo : List Char → List Char → List (List Char)
  | [], acc => if acc.isEmpty then [] else [acc.reverse]
  | c :: rest, acc =>
    if isPyWs c then
      if acc.isEmpty then pySplitGo rest [] else acc.reverse :: pySplitGo rest []
    else pySplitGo rest (c :: acc)

/-- Python `str.split()` on a character list. -/
def pySplit (s : List Char) : List (List Char) := pySplitGo s []

/-- `QualityDimension` of `app/core/models.py`. -/
structure QualityDimension where
  quantity : ℚ
  steps_depth : ℚ
  preconditions : ℚ
  expected_results : ℚ
  diversity : ℚ
deriving DecidableEq

/-- `QualityReport` of `app/core/models.py`. -/
structure QualityReport where
  score : ℚ
  label : String
  dimensions : QualityDimension
deriving DecidableEq

/-- `prec_score` inside `score_test_cases`. -/
def prec_score (tc : TestCase) : ℚ :=
  let p := pyStrip tc.preconditions.data
  if genericPrecond p then 1 / 5
  else if 25 < p.length then 1 else 3 / 5

/-- `res_score` inside `score_test_cases`. -/
def res_score (tc : TestCase) : ℚ :=
  let vc := vagueCount tc.expected_result
  if vc = 0 && 35 < tc.expected_result.length then 1
  else if vc ≤ 1 then 7 / 10
  else 3 / 10

/-- The set of distinct lower-cased words across all titles (the Python set
comprehension, realised as `dedup` of the concatenation). -/
def titleWordSet (tcs : List TestCase) : List (List Char) :=
  ((tcs.map (fun tc => pySplit (lowerL tc.title.data))).flatten).dedup

/-- The local `qty` of `score_test_cases`: `min(n / 3, 1.0) * 0.20`. -/
def qty_w (tcs : List TestCase) : ℚ := min ((tcs.length : ℚ) / 3) 1 * (1 / 5)

/-- The local `avg_steps` of `score_test_cases`. -/
def avg_steps (tcs : List TestCase) : ℚ :=
  (tcs.map (fun tc => min ((tc.steps.length : ℚ) / 3) 1)).sum / (tcs.length : ℚ)

/-- The local `steps` of `score_test_cases`: `avg_steps * 0.25`. -/
def steps_w (tcs : List TestCase) : ℚ := avg_steps tcs * (1 / 4)

/-- The local `prec` of `score_test_cases`. -/
def prec_w (tcs : List TestCase) : ℚ :=
  (tcs.map prec_score).sum / (tcs.length : ℚ) * (1 / 5)

/-- The local `res` of `score_test_cases`. -/
def res_w (tcs : List TestCase) : ℚ :=
  (tcs.map res_score).sum / (tcs.length : ℚ) * (1 / 5)

/-- The local `div` of `score_test_cases`. -/
def div_w (tcs : List TestCase) : ℚ :=
  min (((titleWordSet tcs).length : ℚ) / ((tcs.length : ℚ) * 3)) 1 * (3 / 20)

/-- The local `total` of `score_test_cases`: weighted sum rounded to four
decimal places. -/
def totalScore (tcs : List TestCase) : ℚ :=
  round4 (qty_w tcs + steps_w tcs + prec_w tcs + res_w tcs + div_w tcs)

/-- `score_test_cases` of `app/services/scorer.py`: five weighted
sub-scores, aggregate rounded to 4 decimals, label from the rounded
percentage, per-dimension values normalised back by their weights. -/
def score_test_cases (tcs : List TestCase) : QualityReport :=
  let pct := pyRound (totalScore tcs * 100)
  { score := totalScore tcs,
    label :=
      if 75 ≤ pct then "Alta calidad"
      else if 50 ≤ pct then "Calidad media"
      else "Mejorable",
    dimensions :=
      { quantity := round4 (qty_w tcs / (1 / 5)),
        steps_depth := round4 (avg_steps tcs),
        preconditions := round4 (prec_w tcs / (1 / 5)),
        expected_results := round4 (res_w tcs / (1 / 5)),
        diversity := round4 (div_w tcs / (3 / 20)) } }

/-! ### Configuration and orchestrator (`app/core/config.py`,
`app/services/generator.py`) -/

/-- `Settings.MAX_RETRIES` default from `app/core/config.py`. -/
def MAX_RETRIES : Nat := 2

/-- `LLMResponse` of `app/services/llm_client.py`. -/
structure LLMResponse where
  text : String
  stop_reason : String
  model : String
deriving DecidableEq

/-- `ResponseMeta` of `app/core/models.py` (provenance fields). -/
structure ResponseMeta where
  model : String
  stop_reason : String
  was_repaired : Bool
  attempts : Nat
deriving DecidableEq

/-- `GenerateResponse` of `app/core/models.py`. -/
structure GenerateResponse where
  test_cases : List TestCase
  quality : QualityReport
  meta : ResponseMeta
deriving DecidableEq

/-- The closed fault taxonomy of `app/services/llm_client.py`:
`LLMParseError`, `LLMTimeoutError`, `LLMNetworkError`, `LLMAPIError`. -/
inductive LLMFault where
  | parse (msg : String)
  | timeout (msg : String)
  | network (msg : String)
  | api (msg : String)
deriving DecidableEq

/-- One attempt of the orchestrator body: call the generation collaborator,
then parse/validate/repair, then score.  The collaborator is a function from
the (1-based) attempt number to its outcome. -/
def attemptResult (client : Nat → Except LLMFault LLMResponse) (k : Nat) :
    Except LLMFault GenerateResponse :=
  match client k with
  | .error f => .error f
  | .ok resp =>
    match parse_and_validate resp.text resp.stop_reason with
    | .error m => .error (.parse m)
    | .ok (out, rep) =>
      .ok { test_cases := out.test_cases,
            quality := score_test_cases out.test_cases,
            meta := { model := resp.model, stop_reason := resp.stop_reason,
                      was_repaired := rep, attempts := k } }

/-- The retry loop of `generate_test_cases`: `k` is the current attempt
number, the second argument counts the loop iterations that remain
(`range(1, MAX_RETRIES + 2)` runs `mr + 1` of them).  A parse error retries
while `k ≤ mr`; every other fault propagates immediately. -/
def genAttempts (client : Nat → Except LLMFault LLMResponse) (mr : Nat) :
    Nat → Nat → Except LLMFault GenerateResponse
  | _, 0 => .error (.parse "Generation failed after all retries")
  | k, rem + 1 =>
    match attemptResult client k with
    | .ok r => .ok r
    | .error (.parse m) =>
      if k ≤ mr then genAttempts client mr (k + 1) rem else .error (.parse m)
    | .error f => .error f

/-- `generate_test_cases` of `app/services/generator.py` with retry budget
`mr` (the configured `MAX_RETRIES`). -/
def generate_test_cases (mr : Nat) (client : Nat → Except LLMFault LLMResponse) :
    Except LLMFault GenerateResponse :=
  genAttempts client mr 1 (mr + 1)

/-! ### Claim-side notions: delimiter stack machine, substring test, and the
spec's formulation of the scorer -/

/-- State of the claim-side bracket-matching machine: same string tracking
as the code's counting scan, but with the stack of unmatched opening
delimiters (innermost at the head) and a mismatch flag. -/
structure StackSt where
  inStr : Bool
  esc : Bool
  stack : List Char
  ok : Bool
deriving DecidableEq

/-- Pop the matching opening delimiter, or record a mismatch. -/
def popMatch (st : StackSt) (o : Char) : StackSt :=
  match st.stack with
  | c :: rest => if c = o then { st with stack := rest } else { st with ok := false }
  | [] => { st with ok := false }

/-- One step of the bracket-matching machine (the branch order mirrors
`scanStep`). -/
def stackStep (st : StackSt) (ch : Char) : StackSt :=
  if st.esc then { st with esc := false }
  else if ch = '\\' && st.inStr then { st with esc := true }
  else if ch = '"' then { st with inStr := !st.inStr }
  else if st.inStr then st
  else if ch = lbrace then { st with stack := lbrace :: st.stack }
  else if ch = rbrace then popMatch st lbrace
  else if ch = '[' then { st with stack := '[' :: st.stack }
  else if ch = ']' then popMatch st '['
  else st

/-- Initial state of the bracket-matching machine. -/
def initStack : StackSt := ⟨false, false, [], true⟩

/-- Run the bracket-matching machine over a text. -/
def scanStack (s : List Char) : StackSt := s.foldl stackStep initStack

/-- Bracket-balance of a text: the scan meets no mismatched closer, ends
with an empty stack, and ends outside any string literal. -/
def balancedDelims (s : List Char) : Bool :=
  ((scanStack s).ok && (scanStack s).stack.isEmpty) && !(scanStack s).inStr

/-- Contiguous-substring test (used to state that repaired string values
appear verbatim in the original input). -/
def containsSub (needle : List Char) : List Char → Bool
  | [] => needle.isEmpty
  | c :: t => startsWith needle (c :: t) || containsSub needle t

/-- Claim-side sub-score `quantity = min(count/3, 1)`. -/
def specSubQuantity (tcs : List TestCase) : ℚ := min ((tcs.length : ℚ) / 3) 1

/-- Claim-side sub-score `stepsDepth`: mean over cases of
`min(stepCount/3, 1)`. -/
def specSubSteps (tcs : List TestCase) : ℚ :=
  (tcs.map (fun tc => min ((tc.steps.length : ℚ) / 3) 1)).sum / (tcs.length : ℚ)

/-- Claim-side sub-score `preconditions`: mean over cases of 0.2 for a
generic pattern, else 1.0 when length exceeds 25, else 0.6. -/
def specSubPrec (tcs : List TestCase) : ℚ :=
  (tcs.map prec_score).sum / (tcs.length : ℚ)

/-- Claim-side sub-score `expectedResults`: mean over cases of 1.0 / 0.7 /
0.3 by vague-word count and length. -/
def specSubRes (tcs : List TestCase) : ℚ :=
  (tcs.map res_score).sum / (tcs.length : ℚ)

/-- Claim-side sub-score `diversity = min(uniqueWords/(count*3), 1)`. -/
def specSubDiv (tcs : List TestCase) : ℚ :=
  min (((titleWordSet tcs).length : ℚ) / ((tcs.length : ℚ) * 3)) 1

/-- Claim-side aggregate: weighted sum with weights .20/.25/.20/.20/.15,
rounded to 4 decimal places. -/
def specScoreVal (tcs : List TestCase) : ℚ :=
  round4 (specSubQuantity tcs * (1 / 5) + specSubSteps tcs * (1 / 4)
    + specSubPrec tcs * (1 / 5) + specSubRes tcs * (1 / 5)
    + specSubDiv tcs * (3 / 20))

/-- Claim-side label from `round(score*100)`: at least 75 High
("Alta calidad"), at least 50 Medium ("Calidad media"), else
NeedsImprovement ("Mejorable"). -/
def specLabel (x : ℚ) : String :=
  if 75 ≤ pyRound (x * 100) then "Alta calidad"
  else if 50 ≤ pyRound (x * 100) then "Calidad media"
  else "Mejorable"

/-- Claim-side `QualityReport`: aggregate, label, and each dimension
reported as the raw sub-score rounded to 4 decimals. -/
def spec_score_report (tcs : List TestCase) : QualityReport :=
  { score := specScoreVal tcs,
    label := specLabel (specScoreVal tcs),
    dimensions :=
      { quantity := round4 (specSubQuantity tcs),
        steps_depth := round4 (specSubSteps tcs),
        preconditions := round4 (specSubPrec tcs),
        expected_results := round4 (specSubRes tcs),
        diversity := round4 (specSubDiv tcs) } }

/-! ### Concrete fixtures for witnesses and counterexamples -/

/-- A schema-conformant raw payload with one test case. -/
def validRaw : String :=
  "\x7b\"test_cases\": [\x7b\"title\": \"Login works\", \"preconditions\": \"User exists\", \"steps\": [\"a1\", \"b2\"], \"expected_result\": \"Dashboard shown ok\"\x7d]\x7d"

/-- The test case encoded in `validRaw`. -/
def validCase : TestCase :=
  ⟨"Login works", "User exists", ["a1", "b2"], "Dashboard shown ok"⟩

/-- The JSON object graph of `validRaw`. -/
def validJson : Json :=
  Json.obj [("test_cases", Json.arr [Json.obj
    [("title", Json.str "Login works"),
     ("preconditions", Json.str "User exists"),
     ("steps", Json.arr [Json.str "a1", Json.str "b2"]),
     ("expected_result", Json.str "Dashboard shown ok")]])]

/-! ### Helper lemmas about the repair entry point -/

/-- If the fence-stripped text parses directly, `repair_truncated_json`
returns that parse and applies no rewrite. -/
lemma repair_of_parse (raw : String) (v : Json)
    (h : json_loads (strip_fences raw) = some v) :
    repair_truncated_json raw = some v := by
  show (match json_loads (strip_fences raw) with
    | some v => some v
    | none => json_loads ⟨repairRewrite (strip_fences raw).data⟩) = some v
  rw [h]

/-! ### Claims C9, C10, C8, C1 -/

/-- Claim C9: `strip_fences` is a pure total function, is idempotent, and
its result is the input with every markdown fence marker removed and
surrounding whitespace trimmed. -/
theorem claim_C9_idempotent (s : String) :
    strip_fences (strip_fences s) = strip_fences s ∧
      strip_fences s = ⟨pyStrip (removeFences s.data)⟩ :=
  ⟨strip_fences_idem s, rfl⟩

/-- Claim C10: for every input, the output of `strip_fences` contains no
occurrence of the triple-backtick fence marker anywhere — the substitution
removes occurrences even inside JSON string literals. -/
theorem claim_C10_no_fence (s : String) :
    hasTriple (strip_fences s).data = false :=
  strip_fences_noTriple s

/-- Claim C8 (amended): `repair_truncated_json` applied to text whose
fence-stripped form already parses as JSON returns exactly the direct parse
of that fence-stripped form, with none of the repair rewrites applied.  (As
stated the claim fails: the fence stripping that precedes the parse can
alter string values containing backtick fences.) -/
theorem claim_C8_amended (raw : String) (v : Json)
    (h : json_loads (strip_fences raw) = some v) :
    repair_truncated_json raw = some v :=
  repair_of_parse raw v h

/-- Witness for C8: a fenced, valid payload is returned as its direct
parse. -/
theorem claim_C8_witness :
    repair_truncated_json "```json\n\x7b\"a\": 1\x7d\n```"
      = some (Json.obj [("a", Json.num "1")]) :=
  claim_C8_amended "```json\n\x7b\"a\": 1\x7d\n```" (Json.obj [("a", Json.num "1")]) rfl

/-- Counterexample for C8 as stated: this text parses as JSON directly, yet
`repair_truncated_json` returns a different object graph, because fence
stripping deletes the backticks inside the string value. -/
theorem claim_C8_cx :
    json_loads "\x7b\"a\": \"x```y\"\x7d" = some (Json.obj [("a", Json.str "x```y")]) ∧
    repair_truncated_json "\x7b\"a\": \"x```y\"\x7d" = some (Json.obj [("a", Json.str "xy")]) ∧
    Json.obj [("a", Json.str "x```y")] ≠ Json.obj [("a", Json.str "xy")] := by
  refine ⟨rfl, rfl, ?_⟩
  intro h
  have h2 := congrArg
    (fun j => match j with
      | Json.obj (("a", Json.str s) :: _) => s
      | _ => "") h
  simp only at h2
  exact absurd h2 (by decide)

/-- Claim C1 (amended): for every raw text whose fence-stripped form is
valid JSON passing validation, `parse_and_validate` returns the content of
the direct parse for every truncation signal, and reports
`was_repaired = (stop_reason = "length")`: the direct parse happens in
`parse_and_validate` itself when the signal is not `"length"`, and inside
`repair_truncated_json` otherwise — but in the latter case the repaired
flag is reported `true` even though no rewrite was applied.  (As stated the
claim fails: `was_repaired` is not `false` for `stop_reason = "length"`.) -/
theorem claim_C1_amended (raw sr : String) (d : Json) (out : LLMOutput)
    (h1 : json_loads (strip_fences raw) = some d)
    (h2 : validate_structure d = .ok out) :
    parse_and_validate raw sr = .ok (out, decide (sr = "length")) := by
  have hrep : repair_truncated_json (strip_fences raw) = some d := by
    apply repair_of_parse
    rw [strip_fences_idem]
    exact h1
  by_cases hsr : sr = "length"
  · subst hsr
    simp [parse_and_validate, hrep, h2]
  · simp [parse_and_validate, hsr, h1, h2]

/-- Witness for C1: the valid payload with a non-truncation signal parses
directly and reports no repair. -/
theorem claim_C1_witness :
    parse_and_validate validRaw "stop" = .ok (⟨[validCase]⟩, false) := by
  have h := claim_C1_amended validRaw "stop" validJson ⟨[validCase]⟩ rfl rfl
  simpa using h

/-- Counterexample for C1 as stated: the same valid payload with
`stop_reason = "length"` yields identical content but `was_repaired = true`,
refuting "reports was_repaired = false … regardless of the truncation
signal". -/
theorem claim_C1_cx :
    parse_and_validate validRaw "length" = .ok (⟨[validCase]⟩, true) := rfl

/-! ### Claim C4: the repair rewrite deletes and appends only -/

lemma subA_sublist (s : List Char) : List.Sublist (subA s) s := by
  induction s with
  | nil => exact List.Sublist.refl _
  | cons c rest ih =>
    rw [subA]
    split
    · exact List.nil_sublist _
    · exact ih.cons₂ c

lemma subB_sublist (s : List Char) : List.Sublist (subB s) s := by
  induction s with
  | nil => exact List.Sublist.refl _
  | cons c rest ih =>
    rw [subB]
    split
    · exact List.nil_sublist _
    · exact ih.cons₂ c

lemma subC_sublist (s : List Char) : List.Sublist (subC s) s := by
  induction s with
  | nil => exact List.Sublist.refl _
  | cons c rest ih =>
    rw [subC]
    split
    · exact List.nil_sublist _
    · exact ih.cons₂ c

lemma subD_sublist (s : List Char) : List.Sublist (subD s) s := by
  induction s with
  | nil => exact List.Sublist.refl _
  | cons c rest ih =>
    rw [subD]
    split
    · exact ih.cons c
    · exact ih.cons₂ c

lemma subE_sublist (s : List Char) : List.Sublist (subE s) s := by
  induction s with
  | nil => exact List.Sublist.refl _
  | cons c rest ih =>
    rw [subE]
    split
    · exact List.nil_sublist _
    · exact ih.cons₂ c

/-- Claim C4 (amended): whatever `repair_truncated_json` rewrites, the
rewritten text arises from the input only by deleting characters and
appending closing delimiters: it is a sublist (subsequence) of the input
followed by some `]`s and `}`s.  (As stated the claim fails: the
trailing-comma cleanup also deletes commas inside string literals, so a
string value of the repaired graph need not appear verbatim.) -/
theorem claim_C4_amended (s : List Char) :
    ∃ a b, List.Sublist (repairRewrite s)
      (s ++ (List.replicate b ']' ++ List.replicate a rbrace)) := by
  refine ⟨(countDelims (subE (subD (subC (subB (subA s)))))).braces.toNat,
    (countDelims (subE (subD (subC (subB (subA s)))))).brackets.toNat, ?_⟩
  have hu : List.Sublist (subE (subD (subC (subB (subA s))))) s :=
    ((((subE_sublist _).trans (subD_sublist _)).trans
      (subC_sublist _)).trans (subB_sublist _)).trans (subA_sublist _)
  have h1 : List.Sublist (repairRewrite s)
      (subE (subD (subC (subB (subA s)))) ++
        closersFor (countDelims (subE (subD (subC (subB (subA s))))))) :=
    subD_sublist _
  exact h1.trans (hu.append (List.Sublist.refl _))

/-- Counterexample for C4 as stated: repair succeeds on this truncated text
and returns an object graph whose string value `"val }"` appears nowhere in
the original input, because the comma inside the string literal was deleted
by the trailing-comma cleanup. -/
theorem claim_C4_cx :
    repair_truncated_json "\x7b\"a\": \"val, \x7d\", \"b\": ["
      = some (Json.obj [("a", Json.str "val \x7d")]) ∧
    containsSub "val \x7d".data "\x7b\"a\": \"val, \x7d\", \"b\": [".data = false :=
  ⟨rfl, rfl⟩

/-! ### Claim C2: the delimiter count and the appended closers -/

/-- The counting machine agrees with the stack machine: same string state,
and the two counters equal the number of `{` resp. `[` on the stack. -/
def relSt (c : ScanSt) (k : StackSt) : Prop :=
  c.inStr = k.inStr ∧ c.esc = k.esc ∧
    c.braces = (k.stack.count lbrace : ℤ) ∧
    c.brackets = (k.stack.count '[' : ℤ)

lemma popMatch_ok_mono (st : StackSt) (o : Char) (h : st.ok = false) :
    (popMatch st o).ok = false := by
  rw [popMatch]
  cases st.stack with
  | nil => rfl
  | cons c rest =>
    show (if c = o then ({ inStr := st.inStr, esc := st.esc, stack := rest, ok := st.ok } : StackSt)
      else ({ inStr := st.inStr, esc := st.esc, stack := c :: rest, ok := false } : StackSt)).ok = false
    by_cases hc : c = o
    · rw [if_pos hc]
      exact h
    · rw [if_neg hc]

lemma stackStep_ok_mono (st : StackSt) (ch : Char) (h : st.ok = false) :
    (stackStep st ch).ok = false := by
  rw [stackStep]
  split_ifs <;> first
    | exact h
    | exact popMatch_ok_mono _ _ h

lemma foldl_stackStep_ok_mono (s : List Char) :
    ∀ (k : StackSt), k.ok = false → (List.foldl stackStep k s).ok = false := by
  induction s with
  | nil => intro k h; exact h
  | cons ch t ih =>
    intro k h
    rw [List.foldl_cons]
    exact ih _ (stackStep_ok_mono k ch h)

lemma count_int_cons_self (c0 : Char) (L : List Char) :
    (((c0 :: L).count c0 : ℤ)) = (L.count c0 : ℤ) + 1 := by
  rw [List.count_cons_self]
  push_cast
  ring

lemma count_int_cons_ne (x c0 : Char) (L : List Char) (h : x ≠ c0) :
    (((c0 :: L).count x : ℤ)) = (L.count x : ℤ) := by
  rw [List.count_cons_of_ne h]

lemma relSt_step (c : ScanSt) (k : StackSt) (ch : Char) (hrel : relSt c k)
    (hok : (stackStep k ch).ok = true) :
    relSt (scanStep c ch) (stackStep k ch) := by
  obtain ⟨ci, ce, cb, ck⟩ := c
  obtain ⟨ki, ke, ks, ko⟩ := k
  obtain ⟨h1, h2, h3, h4⟩ := hrel
  simp only at h1 h2 h3 h4
  subst h1; subst h2; subst h3; subst h4
  have hbne : (lbrace : Char) ≠ '[' := by decide
  have hbne2 : ('[' : Char) ≠ lbrace := by decide
  simp only [scanStep, stackStep] at hok ⊢
  by_cases hA : ce = true
  case pos =>
    rw [if_pos hA, if_pos hA]
    exact ⟨rfl, rfl, rfl, rfl⟩
  case neg =>
  rw [if_neg hA, if_neg hA]
  rw [if_neg hA] at hok
  by_cases hB : (decide (ch = '\\') && ci) = true
  case pos =>
    rw [if_pos hB, if_pos hB]
    exact ⟨rfl, rfl, rfl, rfl⟩
  case neg =>
  rw [if_neg hB, if_neg hB]
  rw [if_neg hB] at hok
  by_cases hC : ch = '"'
  case pos =>
    rw [if_pos hC, if_pos hC]
    exact ⟨rfl, rfl, rfl, rfl⟩
  case neg =>
  rw [if_neg hC, if_neg hC]
  rw [if_neg hC] at hok
  by_cases hD : ci = true
  case pos =>
    rw [if_pos hD, if_pos hD]
    exact ⟨rfl, rfl, rfl, rfl⟩
  case neg =>
  rw [if_neg hD, if_neg hD]
  rw [if_neg hD] at hok
  by_cases hE : ch = lbrace
  case pos =>
    rw [if_pos hE, if_pos hE]
    exact ⟨rfl, rfl, (count_int_cons_self lbrace ks).symm,
      (count_int_cons_ne '[' lbrace ks hbne2).symm⟩
  case neg =>
  rw [if_neg hE, if_neg hE]
  rw [if_neg hE] at hok
  by_cases hF : ch = rbrace
  case pos =>
    rw [if_pos hF, if_pos hF]
    rw [if_pos hF] at hok
    cases ks with
    | nil =>
      simp only [popMatch] at hok
      simp at hok
    | cons c0 rest =>
      simp only [popMatch] at hok ⊢
      by_cases hc0 : c0 = lbrace
      · rw [if_pos hc0] at hok ⊢
        subst hc0
        refine ⟨rfl, rfl, ?_, ?_⟩
        · rw [count_int_cons_self]
          ring
        · exact count_int_cons_ne '[' lbrace rest hbne2
      · rw [if_neg hc0] at hok
        simp at hok
  case neg =>
  rw [if_neg hF, if_neg hF]
  rw [if_neg hF] at hok
  by_cases hG : ch = '['
  case pos =>
    rw [if_pos hG, if_pos hG]
    exact ⟨rfl, rfl, (count_int_cons_ne lbrace '[' ks hbne).symm,
      (count_int_cons_self '[' ks).symm⟩
  case neg =>
  rw [if_neg hG, if_neg hG]
  rw [if_neg hG] at hok
  by_cases hH : ch = ']'
  case pos =>
    rw [if_pos hH, if_pos hH]
    rw [if_pos hH] at hok
    cases ks with
    | nil =>
      simp only [popMatch] at hok
      simp at hok
    | cons c0 rest =>
      simp only [popMatch] at hok ⊢
      by_cases hc0 : c0 = '['
      · rw [if_pos hc0] at hok ⊢
        subst hc0
        refine ⟨rfl, rfl, ?_, ?_⟩
        · exact count_int_cons_ne lbrace '[' rest hbne
        · rw [count_int_cons_self]
          ring
      · rw [if_neg hc0] at hok
        simp at hok
  case neg =>
  rw [if_neg hH, if_neg hH]
  exact ⟨rfl, rfl, rfl, rfl⟩

lemma relSt_fold (s : List Char) :
    ∀ (c : ScanSt) (k : StackSt), relSt c k →
    (List.foldl stackStep k s).ok = true →
    relSt (List.foldl scanStep c s) (List.foldl stackStep k s) := by
  induction s with
  | nil => intro c k h _; exact h
  | cons ch t ih =>
    intro c k h hok
    rw [List.foldl_cons] at hok ⊢
    rw [List.foldl_cons]
    have hstep_ok : (stackStep k ch).ok = true := by
      by_contra hf
      have hff : (stackStep k ch).ok = false := by
        cases hx : (stackStep k ch).ok
        · rfl
        · exact absurd hx hf
      have := foldl_stackStep_ok_mono t _ hff
      rw [this] at hok
      cases hok
    exact ih _ _ (relSt_step c k ch h hstep_ok) hok

lemma countDelims_of_stack (s : List Char) (a b : Nat)
    (h : scanStack s = ⟨false, false,
      List.replicate b '[' ++ List.replicate a lbrace, true⟩) :
    countDelims s = ⟨false, false, (a : ℤ), (b : ℤ)⟩ := by
  have hok : (List.foldl stackStep initStack s).ok = true := by
    rw [show List.foldl stackStep initStack s = scanStack s from rfl, h]
  have hrel : relSt (countDelims s) (scanStack s) :=
    relSt_fold s initScan initStack (by simp [relSt, initScan, initStack]) hok
  rw [h] at hrel
  obtain ⟨h1, h2, h3, h4⟩ := hrel
  simp only at h1 h2 h3 h4
  have f1 : ((lbrace : Char) == '[') = false := by decide
  have f2 : (('[' : Char) == lbrace) = false := by decide
  have f3 : ((lbrace : Char) == lbrace) = true := by decide
  have f4 : (('[' : Char) == '[') = true := by decide
  have hca : ((List.replicate b '[' ++ List.replicate a lbrace).count lbrace) = a := by
    simp [List.count_append, List.count_replicate, f1, f2, f3, f4]
  have hcb : ((List.replicate b '[' ++ List.replicate a lbrace).count '[') = b := by
    simp [List.count_append, List.count_replicate, f1, f2, f3, f4]
  rw [hca] at h3
  rw [hcb] at h4
  have heta : countDelims s = ⟨(countDelims s).inStr, (countDelims s).esc,
      (countDelims s).braces, (countDelims s).brackets⟩ := rfl
  rw [heta, h1, h2, h3, h4]

lemma stackStep_pop_brace (L : List Char) :
    stackStep ⟨false, false, lbrace :: L, true⟩ rbrace = ⟨false, false, L, true⟩ := by
  have h1 : ¬(rbrace = '"') := by decide
  have h2 : ¬(rbrace = lbrace) := by decide
  simp [stackStep, popMatch, h1, h2]

lemma stackStep_pop_bracket (L : List Char) :
    stackStep ⟨false, false, '[' :: L, true⟩ ']' = ⟨false, false, L, true⟩ := by
  have h1 : ¬((']' : Char) = '"') := by decide
  have h2 : ¬((']' : Char) = lbrace) := by decide
  have h3 : ¬((']' : Char) = rbrace) := by decide
  simp [stackStep, popMatch, h1, h2, h3]

lemma foldl_close_braces (a : Nat) :
    List.foldl stackStep ⟨false, false, List.replicate a lbrace, true⟩
      (List.replicate a rbrace) = ⟨false, false, [], true⟩ := by
  induction a with
  | zero => rfl
  | succ a ih =>
    rw [List.replicate_succ, List.replicate_succ, List.foldl_cons,
      stackStep_pop_brace]
    exact ih

lemma foldl_close_all (b a : Nat) :
    List.foldl stackStep
      ⟨false, false, List.replicate b '[' ++ List.replicate a lbrace, true⟩
      (List.replicate b ']' ++ List.replicate a rbrace)
      = ⟨false, false, [], true⟩ := by
  induction b with
  | zero =>
    simp only [List.replicate, List.nil_append]
    exact foldl_close_braces a
  | succ b ih =>
    rw [List.replicate_succ, List.replicate_succ, List.cons_append,
      List.cons_append, List.foldl_cons, stackStep_pop_bracket]
    exact ih

/-- Claim C2 (amended): on a tail whose scan ends outside any string with
the unmatched opens being (outermost first) braces then brackets, the repair
counts exactly those unmatched delimiters (ignoring ones inside string
literals) and appends all `]`s before all `}`s — which in that case closes
the innermost units first and yields a bracket-balanced text.  (As stated
the claim fails: the code always emits every `]` before every `}`, so when
an unmatched `[` encloses an unmatched `{` the closers are emitted in the
wrong order and the result is not balanced.) -/
theorem claim_C2_amended (s : List Char) (a b : Nat)
    (h : scanStack s = ⟨false, false,
      List.replicate b '[' ++ List.replicate a lbrace, true⟩) :
    countDelims s = ⟨false, false, (a : ℤ), (b : ℤ)⟩ ∧
    appendClosers s = s ++ (List.replicate b ']' ++ List.replicate a rbrace) ∧
    balancedDelims (appendClosers s) = true := by
  have hcd := countDelims_of_stack s a b h
  have hcl : closersFor (countDelims s)
      = List.replicate b ']' ++ List.replicate a rbrace := by
    rw [hcd]
    simp [closersFor]
  have happ : appendClosers s
      = s ++ (List.replicate b ']' ++ List.replicate a rbrace) := by
    rw [appendClosers, hcl]
  refine ⟨hcd, happ, ?_⟩
  have hscan : scanStack (appendClosers s) = ⟨false, false, [], true⟩ := by
    rw [happ, scanStack, List.foldl_append,
      show List.foldl stackStep initStack s = scanStack s from rfl, h,
      foldl_close_all]
  rw [balancedDelims, hscan]
  rfl

/-- Witness for C2: the typical truncation tail `{"test_cases": [` has one
unmatched `{` outside one unmatched `[`; the repair appends `]}` and the
result balances. -/
theorem claim_C2_witness :
    countDelims "\x7b\"test_cases\": [".data = ⟨false, false, (1 : ℤ), (1 : ℤ)⟩ ∧
    appendClosers "\x7b\"test_cases\": [".data
      = "\x7b\"test_cases\": [".data ++ (List.replicate 1 ']' ++ List.replicate 1 rbrace) ∧
    balancedDelims (appendClosers "\x7b\"test_cases\": [".data) = true :=
  claim_C2_amended "\x7b\"test_cases\": [".data 1 1 rfl

/-- Counterexample for C2 as stated: the tail `[{` is a well-formed prefix
whose unmatched opens are an outer `[` and an inner `{`; closing the
innermost first would append `}]`, but the code appends `]}`, leaving the
text unbalanced, and the repair as a whole fails. -/
theorem claim_C2_cx :
    scanStack "[\x7b".data = ⟨false, false, [lbrace, '['], true⟩ ∧
    repairRewrite "[\x7b".data = "[\x7b]\x7d".data ∧
    balancedDelims "[\x7b]\x7d".data = false ∧
    repair_truncated_json "[\x7b" = none :=
  ⟨rfl, rfl, rfl, rfl⟩


/-! ### Claim C5: all-or-nothing schema validation -/

/-- Claim C5: a shape-correct payload is accepted exactly when the extracted
list is non-empty and every case meets every field constraint (title 5-200,
preconditions 5-200, 2-4 non-blank steps, expected_result 10-200); on
acceptance the output is the extracted list verbatim (nothing truncated);
a shape/type violation is likewise rejected with a `ParseError`. -/
theorem claim_C5_all_or_nothing (j : Json) (l : List TestCase)
    (h : extractCases j = some l) :
    (validate_structure j = .ok ⟨l⟩ ↔ (l ≠ [] ∧ ∀ tc ∈ l, caseOk tc = true)) ∧
    (∀ out, validate_structure j = .ok out → out = ⟨l⟩) ∧
    (∀ j2, extractCases j2 = none →
      validate_structure j2 = .error "Structural validation failed") := by
  have hv : validate_structure j =
      (if !l.isEmpty && l.all caseOk then .ok ⟨l⟩
       else .error "Structural validation failed") := by
    rw [validate_structure, h]
  refine ⟨?_, ?_, ?_⟩
  · rw [hv]
    by_cases hc : (!l.isEmpty && l.all caseOk) = true
    · rw [if_pos hc]
      simp only [Bool.and_eq_true, Bool.not_eq_true'] at hc
      constructor
      · intro _
        refine ⟨?_, ?_⟩
        · intro he
          rw [he] at hc
          simp [List.isEmpty] at hc
        · intro tc htc
          have hall := hc.2
          rw [List.all_eq_true] at hall
          exact hall tc htc
      · intro _
        rfl
    · rw [if_neg hc]
      constructor
      · intro he
        exact Except.noConfusion he
      · rintro ⟨hne, hall⟩
        exfalso
        apply hc
        simp only [Bool.and_eq_true, Bool.not_eq_true']
        refine ⟨?_, List.all_eq_true.mpr hall⟩
        cases hll : l with
        | nil => exact absurd hll hne
        | cons x xs => simp [List.isEmpty]
  · intro out hout
    rw [hv] at hout
    by_cases hc : (!l.isEmpty && l.all caseOk) = true
    · rw [if_pos hc] at hout
      injection hout with h2
      exact h2.symm
    · rw [if_neg hc] at hout
      exact Except.noConfusion hout
  · intro j2 h2
    rw [validate_structure, h2]

/-- Witness for C5: the one-case fixture passes validation and is returned
verbatim. -/
theorem claim_C5_witness :
    validate_structure validJson = .ok ⟨[validCase]⟩ :=
  ((claim_C5_all_or_nothing validJson [validCase] rfl).1).mpr
    ⟨by simp, by decide⟩

/-! ### Claim C6: the scorer computes the specified formulas -/

/-- Claim C6: for every non-empty list of validated test cases the scorer
equals the claim-side formulas: the five sub-scores, the fixed weights
.20/.25/.20/.20/.15, the 4-decimal rounding of the aggregate, each
dimension reported as the raw sub-score divided by its weight rounded to 4
decimals, and the label thresholds on `round(score*100)` (High =
"Alta calidad", Medium = "Calidad media", NeedsImprovement =
"Mejorable"). -/
theorem claim_C6_formulas (tcs : List TestCase) (_hne : tcs ≠ []) :
    score_test_cases tcs = spec_score_report tcs := by
  have h5 : ((1 : ℚ) / 5) ≠ 0 := by norm_num
  have h320 : ((3 : ℚ) / 20) ≠ 0 := by norm_num
  have hq : qty_w tcs / (1 / 5) = specSubQuantity tcs := by
    rw [qty_w, specSubQuantity, mul_div_cancel_right₀ _ h5]
  have hsd : avg_steps tcs = specSubSteps tcs := rfl
  have hp : prec_w tcs / (1 / 5) = specSubPrec tcs := by
    rw [prec_w, specSubPrec, mul_div_cancel_right₀ _ h5]
  have hr : res_w tcs / (1 / 5) = specSubRes tcs := by
    rw [res_w, specSubRes, mul_div_cancel_right₀ _ h5]
  have hd : div_w tcs / (3 / 20) = specSubDiv tcs := by
    rw [div_w, specSubDiv, mul_div_cancel_right₀ _ h320]
  have ht : totalScore tcs = specScoreVal tcs := by
    rw [totalScore, specScoreVal, qty_w, steps_w, prec_w, res_w, div_w,
      avg_steps, specSubQuantity, specSubSteps, specSubPrec, specSubRes,
      specSubDiv]
  simp only [score_test_cases, spec_score_report, specLabel]
  rw [ht, hq, hsd, hp, hr, hd]

/-- Witness for C6 at a concrete single-case list. -/
theorem claim_C6_witness :
    score_test_cases [validCase] = spec_score_report [validCase] :=
  claim_C6_formulas [validCase] (by simp)

/-! ### Claim C7: bounds and determinism of the scorer -/

lemma pyRound_ge_floor (x : ℚ) : ⌊x⌋ ≤ pyRound x := by
  unfold pyRound
  split_ifs <;> omega

lemma pyRound_le_floor_add_one (x : ℚ) : pyRound x ≤ ⌊x⌋ + 1 := by
  unfold pyRound
  split_ifs <;> omega

lemma pyRound_nonneg (x : ℚ) (h : 0 ≤ x) : 0 ≤ pyRound x :=
  le_trans (Int.floor_nonneg.mpr h) (pyRound_ge_floor x)

lemma pyRound_le_of_le (x : ℚ) (m : ℤ) (h : x ≤ (m : ℚ)) : pyRound x ≤ m := by
  rcases lt_or_eq_of_le h with hlt | heq
  · have h1 : ⌊x⌋ < m := Int.floor_lt.mpr hlt
    have h2 := pyRound_le_floor_add_one x
    omega
  · rw [heq]
    unfold pyRound
    rw [Int.floor_intCast]
    norm_num

lemma round4_mem (x : ℚ) (h0 : 0 ≤ x) (h1 : x ≤ 1) :
    0 ≤ round4 x ∧ round4 x ≤ 1 := by
  constructor
  · apply div_nonneg _ (by norm_num : (0 : ℚ) ≤ 10000)
    exact_mod_cast pyRound_nonneg _ (by positivity)
  · rw [round4, div_le_one (by norm_num : (0 : ℚ) < 10000)]
    have hm : x * 10000 ≤ ((10000 : ℤ) : ℚ) := by
      push_cast
      nlinarith
    exact_mod_cast pyRound_le_of_le _ 10000 hm

lemma mean_mem (l : List ℚ) (hl : l ≠ []) (h0 : ∀ x ∈ l, 0 ≤ x)
    (h1 : ∀ x ∈ l, x ≤ 1) :
    0 ≤ l.sum / (l.length : ℚ) ∧ l.sum / (l.length : ℚ) ≤ 1 := by
  have hlen : 0 < ((l.length : ℚ)) := by
    have := List.length_pos.mpr hl
    exact_mod_cast this
  have hsum0 : 0 ≤ l.sum := by
    have := List.card_nsmul_le_sum l 0 h0
    simpa using this
  have hsum1 : l.sum ≤ (l.length : ℚ) := by
    have := List.sum_le_card_nsmul l 1 h1
    simpa [nsmul_eq_mul] using this
  exact ⟨div_nonneg hsum0 hlen.le, (div_le_one hlen).mpr hsum1⟩

lemma prec_score_mem (tc : TestCase) : 0 ≤ prec_score tc ∧ prec_score tc ≤ 1 := by
  simp only [prec_score]
  split_ifs <;> norm_num

lemma res_score_mem (tc : TestCase) : 0 ≤ res_score tc ∧ res_score tc ≤ 1 := by
  simp only [res_score]
  split_ifs <;> norm_num

lemma qty_base_mem (tcs : List TestCase) :
    0 ≤ min ((tcs.length : ℚ) / 3) 1 ∧ min ((tcs.length : ℚ) / 3) 1 ≤ 1 :=
  ⟨le_min (by positivity) (by norm_num), min_le_right _ _⟩

lemma steps_base_mem (tcs : List TestCase) (h : tcs ≠ []) :
    0 ≤ avg_steps tcs ∧ avg_steps tcs ≤ 1 := by
  rw [avg_steps, show (tcs.length : ℚ)
      = ((tcs.map (fun tc => min ((tc.steps.length : ℚ) / 3) 1)).length : ℚ) by
    rw [List.length_map]]
  apply mean_mem
  · intro hmap
    exact h (List.map_eq_nil_iff.mp hmap)
  · intro x hx
    rcases List.mem_map.mp hx with ⟨tc, _, rfl⟩
    exact le_min (by positivity) (by norm_num)
  · intro x hx
    rcases List.mem_map.mp hx with ⟨tc, _, rfl⟩
    exact min_le_right _ _

lemma prec_base_mem (tcs : List TestCase) (h : tcs ≠ []) :
    0 ≤ (tcs.map prec_score).sum / (tcs.length : ℚ) ∧
      (tcs.map prec_score).sum / (tcs.length : ℚ) ≤ 1 := by
  rw [show (tcs.length : ℚ) = ((tcs.map prec_score).length : ℚ) by
    rw [List.length_map]]
  apply mean_mem
  · intro hmap
    exact h (List.map_eq_nil_iff.mp hmap)
  · intro x hx
    rcases List.mem_map.mp hx with ⟨tc, _, rfl⟩
    exact (prec_score_mem tc).1
  · intro x hx
    rcases List.mem_map.mp hx with ⟨tc, _, rfl⟩
    exact (prec_score_mem tc).2

lemma res_base_mem (tcs : List TestCase) (h : tcs ≠ []) :
    0 ≤ (tcs.map res_score).sum / (tcs.length : ℚ) ∧
      (tcs.map res_score).sum / (tcs.length : ℚ) ≤ 1 := by
  rw [show (tcs.length : ℚ) = ((tcs.map res_score).length : ℚ) by
    rw [List.length_map]]
  apply mean_mem
  · intro hmap
    exact h (List.map_eq_nil_iff.mp hmap)
  · intro x hx
    rcases List.mem_map.mp hx with ⟨tc, _, rfl⟩
    exact (res_score_mem tc).1
  · intro x hx
    rcases List.mem_map.mp hx with ⟨tc, _, rfl⟩
    exact (res_score_mem tc).2

lemma div_base_mem (tcs : List TestCase) :
    0 ≤ min (((titleWordSet tcs).length : ℚ) / ((tcs.length : ℚ) * 3)) 1 ∧
      min (((titleWordSet tcs).length : ℚ) / ((tcs.length : ℚ) * 3)) 1 ≤ 1 :=
  ⟨le_min (by positivity) (by norm_num), min_le_right _ _⟩

lemma totalScore_mem (tcs : List TestCase) (h : tcs ≠ []) :
    0 ≤ totalScore tcs ∧ totalScore tcs ≤ 1 := by
  have hq := qty_base_mem tcs
  have hs := steps_base_mem tcs h
  have hp := prec_base_mem tcs h
  have hr := res_base_mem tcs h
  have hdv := div_base_mem tcs
  rw [totalScore]
  apply round4_mem
  · rw [qty_w, steps_w, prec_w, res_w, div_w, avg_steps]
    have h1 := hq.1
    have h2 := hs.1
    have h3 := hp.1
    have h4 := hr.1
    have h5 := hdv.1
    rw [avg_steps] at h2
    nlinarith
  · rw [qty_w, steps_w, prec_w, res_w, div_w, avg_steps]
    have h1 := hq.2
    have h2 := hs.2
    have h3 := hp.2
    have h4 := hr.2
    have h5 := hdv.2
    rw [avg_steps] at h2
    nlinarith

/-- Claim C7: for every non-empty input the aggregate score and all five
reported dimensions lie in [0, 1], and scoring is deterministic. -/
theorem claim_C7_bounds (tcs : List TestCase) (h : tcs ≠ []) :
    (0 ≤ (score_test_cases tcs).score ∧ (score_test_cases tcs).score ≤ 1) ∧
    (0 ≤ (score_test_cases tcs).dimensions.quantity ∧
      (score_test_cases tcs).dimensions.quantity ≤ 1) ∧
    (0 ≤ (score_test_cases tcs).dimensions.steps_depth ∧
      (score_test_cases tcs).dimensions.steps_depth ≤ 1) ∧
    (0 ≤ (score_test_cases tcs).dimensions.preconditions ∧
      (score_test_cases tcs).dimensions.preconditions ≤ 1) ∧
    (0 ≤ (score_test_cases tcs).dimensions.expected_results ∧
      (score_test_cases tcs).dimensions.expected_results ≤ 1) ∧
    (0 ≤ (score_test_cases tcs).dimensions.diversity ∧
      (score_test_cases tcs).dimensions.diversity ≤ 1) ∧
    (∀ tcs2, tcs = tcs2 → score_test_cases tcs = score_test_cases tcs2) := by
  have h5 : ((1 : ℚ) / 5) ≠ 0 := by norm_num
  have h320 : ((3 : ℚ) / 20) ≠ 0 := by norm_num
  simp only [score_test_cases]
  refine ⟨totalScore_mem tcs h, ?_, ?_, ?_, ?_, ?_, fun tcs2 he => by rw [he]⟩
  · rw [show qty_w tcs / (1 / 5) = min ((tcs.length : ℚ) / 3) 1 by
      rw [qty_w, mul_div_cancel_right₀ _ h5]]
    exact round4_mem _ (qty_base_mem tcs).1 (qty_base_mem tcs).2
  · exact round4_mem _ (steps_base_mem tcs h).1 (steps_base_mem tcs h).2
  · rw [show prec_w tcs / (1 / 5) = (tcs.map prec_score).sum / (tcs.length : ℚ) by
      rw [prec_w, mul_div_cancel_right₀ _ h5]]
    exact round4_mem _ (prec_base_mem tcs h).1 (prec_base_mem tcs h).2
  · rw [show res_w tcs / (1 / 5) = (tcs.map res_score).sum / (tcs.length : ℚ) by
      rw [res_w, mul_div_cancel_right₀ _ h5]]
    exact round4_mem _ (res_base_mem tcs h).1 (res_base_mem tcs h).2
  · rw [show div_w tcs / (3 / 20)
        = min (((titleWordSet tcs).length : ℚ) / ((tcs.length : ℚ) * 3)) 1 by
      rw [div_w, mul_div_cancel_right₀ _ h320]]
    exact round4_mem _ (div_base_mem tcs).1 (div_base_mem tcs).2

/-- Witness for C7 at a concrete single-case list. -/
theorem claim_C7_witness :
    0 ≤ (score_test_cases [validCase]).score ∧
      (score_test_cases [validCase]).score ≤ 1 :=
  (claim_C7_bounds [validCase] (by simp)).1


/-! ### Claim C3: retry only on parse errors, immediate propagation of
transport faults -/

lemma genAttempts_skip (client : Nat → Except LLMFault LLMResponse) (mr : Nat) :
    ∀ (rem k j : Nat), k + rem = mr + 2 → k ≤ j → j ≤ mr + 1 →
    (∀ i, k ≤ i → i < j → ∃ m, attemptResult client i = .error (.parse m)) →
    genAttempts client mr k rem = genAttempts client mr j (mr + 2 - j) := by
  intro rem
  induction rem with
  | zero =>
    intro k j hk hkj hj hpar
    exfalso
    omega
  | succ rem ih =>
    intro k j hk hkj hj hpar
    rcases Nat.eq_or_lt_of_le hkj with heq | hlt
    · subst heq
      have hrw : mr + 2 - k = rem + 1 := by omega
      rw [hrw]
    · obtain ⟨m, hm⟩ := hpar k (le_refl k) hlt
      have hkle : k ≤ mr := by omega
      rw [show genAttempts client mr k (rem + 1)
          = genAttempts client mr (k + 1) rem by
        simp only [genAttempts, hm]
        rw [if_pos hkle]]
      exact ih (k + 1) j (by omega) (by omega) hj
        (fun i h1 h2 => hpar i (by omega) h2)

/-- Claim C3: the orchestrator's retry budget is the configured
`MAX_RETRIES` (default 2 extra attempts, 3 total); when every earlier
attempt failed with a `ParseError`, a timeout or network fault at any
attempt propagates immediately and unchanged, a success returns
immediately, and if all `mr + 1` attempts raise `ParseError` the last one
is surfaced. -/
theorem claim_C3_retry (mr : Nat) (client : Nat → Except LLMFault LLMResponse) :
    MAX_RETRIES = 2 ∧
    (∀ j, 1 ≤ j → j ≤ mr + 1 →
      (∀ i, 1 ≤ i → i < j → ∃ m, attemptResult client i = .error (.parse m)) →
      ((∀ m, attemptResult client j = .error (.timeout m) →
          generate_test_cases mr client = .error (.timeout m)) ∧
       (∀ m, attemptResult client j = .error (.network m) →
          generate_test_cases mr client = .error (.network m)) ∧
       (∀ r, attemptResult client j = .ok r →
          generate_test_cases mr client = .ok r))) ∧
    (∀ m : Nat → String,
      (∀ i, 1 ≤ i → i ≤ mr + 1 → attemptResult client i = .error (.parse (m i))) →
      generate_test_cases mr client = .error (.parse (m (mr + 1)))) := by
  refine ⟨rfl, ?_, ?_⟩
  · intro j hj1 hj hpar
    have hskip : generate_test_cases mr client = genAttempts client mr j (mr + 2 - j) :=
      genAttempts_skip client mr (mr + 1) 1 j (by omega) hj1 hj hpar
    have hrem : mr + 2 - j = (mr + 1 - j) + 1 := by omega
    refine ⟨?_, ?_, ?_⟩
    · intro m hm
      rw [hskip, hrem]
      simp only [genAttempts, hm]
    · intro m hm
      rw [hskip, hrem]
      simp only [genAttempts, hm]
    · intro r hr
      rw [hskip, hrem]
      simp only [genAttempts, hr]
  · intro m hall
    have hskip : generate_test_cases mr client
        = genAttempts client mr (mr + 1) (mr + 2 - (mr + 1)) :=
      genAttempts_skip client mr (mr + 1) 1 (mr + 1) (by omega) (by omega)
        (by omega)
        (fun i h1 h2 => ⟨m i, hall i h1 (by omega)⟩)
    have hrem : mr + 2 - (mr + 1) = 1 := by omega
    rw [hskip, hrem]
    have hm := hall (mr + 1) (by omega) (by omega)
    simp only [genAttempts, hm]
    rw [if_neg (by omega : ¬ (mr + 1 ≤ mr))]

/-- A collaborator that always times out. -/
def clientTimeout : Nat → Except LLMFault LLMResponse :=
  fun _ => .error (.timeout "request timed out")

/-- A collaborator that always returns unparseable text. -/
def clientGarbage : Nat → Except LLMFault LLMResponse :=
  fun _ => .ok ⟨"oops", "stop", "gpt-4o-mini"⟩

/-- The parse-error message produced for the garbage collaborator. -/
def garbageMsg : String :=
  "JSON could not be parsed or repaired. stop_reason=stop. First 300 chars of raw: oops"

/-- Witness for C3: a timeout at the first attempt propagates unchanged,
and three parse-error attempts surface the last parse error. -/
theorem claim_C3_witness :
    generate_test_cases 2 clientTimeout = .error (.timeout "request timed out") ∧
    generate_test_cases 2 clientGarbage = .error (.parse garbageMsg) := by
  constructor
  · exact ((claim_C3_retry 2 clientTimeout).2.1 1 (by omega) (by omega)
      (fun i h1 h2 => absurd (lt_of_le_of_lt h1 h2) (lt_irrefl 1))).1
      "request timed out" rfl
  · exact (claim_C3_retry 2 clientGarbage).2.2 (fun _ => garbageMsg)
      (fun i _ _ => rfl)

end GenDemo
